import Mathlib

/-!
Shallow embedding of the `applist` plugin (src/src/lib.rs) in Lean 4.

The plugin scans lists of filesystem paths for `.desktop` descriptor
files, parses each one into an application record, deduplicates records
by name, and launches a selected descriptor via an external helper.

Modelling conventions:
* a descriptor file's text is given as its list of lines (the Rust code
  iterates `content.lines()`);
* the string primitives the Rust code uses (`trim`, `split_once('=')`,
  `starts_with`, `eq_ignore_ascii_case`, `Path::extension`, ...) are
  implemented here by structural recursion over the character list of a
  `String`, so that every concrete computation reduces in the kernel;
* the filesystem and operating system are an explicit environment
  (`Env`): which paths are regular files, what their content is, which
  directories exist and what they list;
* C pointers that may be null are modelled with `Option` layers: a null
  `PathsArray` pointer, a null inner `paths` pointer, a null individual
  path entry, and a non-UTF-8 path entry each become a `none` at the
  corresponding layer;
* a Rust panic (`unwrap` / `expect` on a failure) is modelled by `none`
  in an `Option` result, while a normal return is `some`;
* spawning an external process is modelled by a function argument
  `run : SpawnedCommand -> Option Bool` supplied by the environment:
  `none` means the process could not be spawned (the Rust code calls
  `.expect` there and panics), `some b` means it ran and exited with
  success flag `b`.
-/

namespace Applist

/-! ### String primitives -/

/-- Rust `str::trim`: remove leading and trailing whitespace. -/
def strTrim (s : String) : String :=
  ⟨((s.data.dropWhile Char.isWhitespace).reverse.dropWhile Char.isWhitespace).reverse⟩

/-- Rust `str::starts_with` on a string pattern. -/
def strStartsWith (s pre : String) : Bool :=
  pre.data.isPrefixOf s.data

/-- Rust `str::ends_with` on a string pattern. -/
def strEndsWith (s suf : String) : Bool :=
  suf.data.isSuffixOf s.data

/-- Split a character list at its first `=`. -/
def breakAtEq : List Char → Option (List Char × List Char)
  | [] => none
  | c :: rest =>
    if c = '=' then some ([], rest)
    else
      match breakAtEq rest with
      | some (k, v) => some (c :: k, v)
      | none => none

/-- Rust `str::split_once('=')`: the parts before and after the first
`=`, or `none` when there is no `=`. -/
def splitOnce (s : String) : Option (String × String) :=
  match breakAtEq s.data with
  | some (k, v) => some (⟨k⟩, ⟨v⟩)
  | none => none

/-- ASCII lower-casing of a string (Lean's `Char.toLower` only folds
ASCII letters, matching Rust's ASCII case-insensitive comparison). -/
def strToLower (s : String) : String :=
  ⟨s.data.map Char.toLower⟩

/-- Rust `str::eq_ignore_ascii_case`. -/
def eqIgnoreAsciiCase (a b : String) : Bool :=
  strToLower a == strToLower b

/-- Split a character list on a separator character; mirrors
`str::split`, always returning at least one (possibly empty) part. -/
def splitChar (sep : Char) : List Char → List (List Char)
  | [] => [[]]
  | c :: rest =>
    match splitChar sep rest with
    | [] => [[]]
    | h :: t => if c = sep then [] :: h :: t else (c :: h) :: t

/-- Whether `pat` occurs as a contiguous run inside `l`. -/
def containsSub (pat : List Char) : List Char → Bool
  | [] => pat.isEmpty
  | c :: rest => pat.isPrefixOf (c :: rest) || containsSub pat rest

/-- Substring containment on strings. -/
def containsSubstr (s pat : String) : Bool :=
  containsSub pat.data s.data

/-! ### Descriptor parser -/

/-- The `AppInfo` struct of src/src/lib.rs. -/
structure AppInfo where
  name : String
  description : Option String
  path : String
  icon : Option String
  emoji : Option String
deriving DecidableEq, Repr

/-- The mutable locals of `parse_desktop_file` while scanning lines. -/
structure ParseState where
  name : Option String
  icon : Option String
  description : Option String
  in_desktop_entry : Bool
  no_display : Bool
  hidden : Bool
deriving DecidableEq, Repr

/-- The initial state of the `parse_desktop_file` scan. -/
def initParseState : ParseState :=
  { name := none, icon := none, description := none,
    in_desktop_entry := false, no_display := false, hidden := false }

/-- One iteration of the `for line in content.lines()` loop of
`parse_desktop_file`. The Rust `match` on the trimmed key (whose arms
are string literals, compiled as successive comparisons) is rendered as
the corresponding chain of equality tests, in arm order; the
`"Comment" | "Description"` multi-pattern becomes a disjunction. -/
def parseLine (st : ParseState) (rawLine : String) : ParseState :=
  let line := strTrim rawLine
  if line = "[Desktop Entry]" then
    { st with in_desktop_entry := true }
  else if strStartsWith line "[" then
    { st with in_desktop_entry := false }
  else if !st.in_desktop_entry then
    st
  else
    match splitOnce line with
    | some (key, value) =>
      if strTrim key = "Name" then
        { st with name := some (strTrim value) }
      else if strTrim key = "Icon" then
        { st with icon := some (strTrim value) }
      else if strTrim key = "Comment" ∨ strTrim key = "Description" then
        { st with description := some (strTrim value) }
      else if strTrim key = "NoDisplay" then
        { st with no_display := eqIgnoreAsciiCase (strTrim value) "true" }
      else if strTrim key = "Hidden" then
        { st with hidden := eqIgnoreAsciiCase (strTrim value) "true" }
      else
        st
    | none => st

/-- `parse_desktop_file` of src/src/lib.rs; `content` is the list of
lines of the file's text. -/
def parse_desktop_file (content : List String) (path : String) : Option AppInfo :=
  let st := content.foldl parseLine initParseState
  if st.no_display || st.hidden then
    none
  else
    match st.name, st.icon with
    | some name, some icon =>
      some { name := name, description := st.description, path := path,
             icon := some icon, emoji := none }
    | _, _ => none

/-! ### Paths and filesystem environment -/

/-- The file-name component of a path (Rust `Path::file_name`,
restricted to ordinary `/`-separated paths). -/
def fileName (p : String) : String :=
  ⟨(splitChar '/' p.data).getLastD []⟩

/-- Rust `Path::extension`: the part of the file name after its last
dot; no extension when there is no dot, or when the only dot is the
leading one of a hidden file such as `.bashrc`. -/
def extension (p : String) : Option String :=
  match splitChar '.' (fileName p).data with
  | [] => none
  | [_] => none
  | [[], _] => none
  | parts => (parts.getLast?).map (fun cs => (⟨cs⟩ : String))

/-- Rust `PathBuf::join` for ordinary `/`-separated paths. -/
def joinPath (a b : String) : String :=
  if strEndsWith a "/" then a ++ b else a ++ "/" ++ b

/-- The last `/`-separated segment of a path. -/
def lastSegment (p : String) : String :=
  ⟨(splitChar '/' p.data).getLastD []⟩

/-- The filesystem and directory-listing environment the plugin runs
against. `readFile p` returns the lines of the file at `p`, or `none`
when reading fails; `readDir` returns the directory's entries in native
order or an error. -/
structure Env where
  pathExists : String → Bool
  isFile : String → Bool
  readFile : String → Option (List String)
  readDir : String → Except String (List String)

/-- One element of the `PathsArray` the host hands over: `none` is a
null path pointer, `some none` a path that is not valid UTF-8, and
`some (some p)` a valid path string. -/
abbrev PathEntry := Option (Option String)

/-- The `paths: *const PathsArray` argument of `find_apps`: the outer
`none` is a null `PathsArray` pointer, the inner `none` a null `paths`
field inside it. -/
abbrev PathsArrayPtr := Option (Option (List PathEntry))

/-! ### Catalog builder -/

/-- One iteration of the path loop of `find_apps`: the accumulator is
the pair of the `seen_names` set (as a list) and the `apps` vector. -/
def processPath (env : Env) (acc : List String × List AppInfo) (entry : PathEntry) :
    List String × List AppInfo :=
  match entry with
  | none => acc
  | some none => acc
  | some (some str_path) =>
    if !env.isFile str_path then
      acc
    else
      match extension str_path with
      | some ext =>
        if ext = "desktop" then
          match env.readFile str_path with
          | none => acc
          | some content =>
            match parse_desktop_file content str_path with
            | none => acc
            | some app_info =>
              if acc.1.contains app_info.name then
                acc
              else
                (app_info.name :: acc.1, acc.2 ++ [app_info])
        else
          acc
      | none => acc

/-- `find_apps` of src/src/lib.rs. The Rust function returns
`Result<Vec<AppInfo>>`; its body never constructs an `Err`, and both
null-pointer checks return `Ok` with an empty vector. -/
def find_apps (env : Env) (paths : PathsArrayPtr) : Except String (List AppInfo) :=
  match paths with
  | none => .ok []
  | some none => .ok []
  | some (some entries) => .ok (entries.foldl (processPath env) ([], [])).2

/-- The `ReqData` struct of src/src/lib.rs (the global `REQ_DATA`). -/
structure ReqData where
  paths : Bool
  light_paths : Bool
  local_paths : Bool
  xdg_paths : Bool
deriving DecidableEq, Repr

/-- `get_entries` of src/src/lib.rs as a state transformer: it first
clears the `local_paths` and `xdg_paths` request flags, then builds the
catalog from the two `RESP_DATA` path arrays via `find_apps`, calling
`.unwrap()` on each result (`none` in the second component models a
panic of either unwrap). The C-ABI `Entry` conversion copies each
record's fields one to one and is omitted. -/
def get_entries (req : ReqData) (env : Env)
    (respLocal respXdg : PathsArrayPtr) : ReqData × Option (List AppInfo) :=
  let req2 : ReqData := { req with local_paths := false, xdg_paths := false }
  let catalog : Option (List AppInfo) :=
    match find_apps env respLocal, find_apps env respXdg with
    | .ok a, .ok b => some (a ++ b)
    | _, _ => none
  (req2, catalog)

/-! ### Launch resolver -/

/-- An external command the plugin asks the operating system to run. -/
structure SpawnedCommand where
  program : String
  args : List String
deriving DecidableEq, Repr

/-- The command `handle_selection` builds:
`Command::new("gio").args(["launch", sel])`. -/
def selectionCommand (sel : String) : SpawnedCommand :=
  { program := "gio", args := ["launch", sel] }

/-- `handle_selection` of src/src/lib.rs. `sel` is the selection C
string decoded as UTF-8 (`none` when `to_str()` fails, where the Rust
code unwraps and panics). `run` is the operating system: it maps the
spawned command to `none` when the process cannot be started (the Rust
code calls `.expect` there and panics) or to `some b` where `b` is the
exit status' success flag. The result is `none` for a panic and
`some b` for a normal boolean return. -/
def handle_selection (sel : Option String) (run : SpawnedCommand → Option Bool) :
    Option Bool :=
  match sel with
  | none => none
  | some s =>
    match run (selectionCommand s) with
    | none => none
    | some success => some success

/-! ### The unused `load_applications` builder -/

/-- One iteration of the inner file loop of `load_applications`. -/
def processDirFile (env : Env) (acc : List String × List AppInfo) (path : String) :
    List String × List AppInfo :=
  if extension path ≠ some "desktop" then
    acc
  else if path = "/tmp" || strStartsWith path "/tmp/" then
    acc
  else if !env.pathExists path || !env.isFile path then
    acc
  else
    match env.readFile path with
    | none => acc
    | some content =>
      match parse_desktop_file content path with
      | none => acc
      | some app_info =>
        if acc.1.contains app_info.name then
          acc
        else
          (app_info.name :: acc.1, acc.2 ++ [app_info])

/-- The outer directory loop of `load_applications`: `seen_names` and
`apps` are shared across all data directories; a `read_dir` failure is
propagated as an error by the `?` operator. -/
def loadDirs (env : Env) (acc : List String × List AppInfo) :
    List String → Except String (List String × List AppInfo)
  | [] => .ok acc
  | root :: rest =>
    let apps_dir := joinPath root "applications"
    if !env.pathExists apps_dir then
      loadDirs env acc rest
    else
      match env.readDir apps_dir with
      | .error e => .error e
      | .ok files => loadDirs env (files.foldl (processDirFile env) acc) rest

/-- `load_applications` of src/src/lib.rs; `dataDirs` is the list
returned by `xdg::BaseDirectories::get_data_dirs()`, in order. -/
def load_applications (env : Env) (dataDirs : List String) :
    Except String (List AppInfo) :=
  (loadDirs env ([], []) dataDirs).map (·.2)

/-- The spec's version of the directory computation of the catalog
builder, for comparison with `loadDirs`: append the `applications`
segment only when the root's last path segment is not already
`applications`. -/
def loadDirsSpec (env : Env) (acc : List String × List AppInfo) :
    List String → Except String (List String × List AppInfo)
  | [] => .ok acc
  | root :: rest =>
    let apps_dir :=
      if lastSegment root = "applications" then root
      else joinPath root "applications"
    if !env.pathExists apps_dir then
      loadDirsSpec env acc rest
    else
      match env.readDir apps_dir with
      | .error e => .error e
      | .ok files => loadDirsSpec env (files.foldl (processDirFile env) acc) rest

/-- The spec's version of `load_applications` (conditional append of
the `applications` segment), for comparison with the code's version. -/
def load_applications_spec (env : Env) (dataDirs : List String) :
    Except String (List AppInfo) :=
  (loadDirsSpec env ([], []) dataDirs).map (·.2)

/-! ### Query engine -/

/-- Modelled from the spec: the query/filter stage (spec section 4.3
Query Engine) is absent from src/src/lib.rs — `get_entries` takes no
query argument — so it is reconstructed from the spec's words: a
missing or empty query matches everything; otherwise keep, in order,
exactly the records whose lower-cased name contains the lower-cased
query. -/
def filter_entries (catalog : List AppInfo) (query : Option String) : List AppInfo :=
  match query with
  | none => catalog
  | some q =>
    if q = "" then catalog
    else catalog.filter (fun a => containsSubstr (strToLower a.name) (strToLower q))

/-!
### Claim-side vocabulary

Scans over the lines of a descriptor that track the same section state
as `parseLine` but record only one observation about a given key, used
to state properties of `parse_desktop_file` independently of its full
parse state.
-/

/-- One step of a scan recording whether some line inside the entry
section has assigned the value `true` (ASCII-case-insensitively) to
`key`. The accumulator is (inside the entry section, seen such an
assignment). -/
def setsTrueStep (key : String) (acc : Bool × Bool) (rawLine : String) : Bool × Bool :=
  let line := strTrim rawLine
  if line = "[Desktop Entry]" then (true, acc.2)
  else if strStartsWith line "[" then (false, acc.2)
  else if !acc.1 then acc
  else
    match splitOnce line with
    | some (k, v) =>
      if strTrim k = key then (acc.1, acc.2 || eqIgnoreAsciiCase (strTrim v) "true")
      else acc
    | none => acc

/-- Whether some line inside the entry section assigns the value `true`
(ASCII-case-insensitively) to `key`. -/
def entrySetsTrue (key : String) (lines : List String) : Bool :=
  (lines.foldl (setsTrueStep key) (false, false)).2

/-- One step of a scan recording the value of the last assignment to
`key` inside the entry section. The accumulator is (inside the entry
section, last value assigned so far). -/
def scanKey (key : String) (acc : Bool × Option String) (rawLine : String) :
    Bool × Option String :=
  let line := strTrim rawLine
  if line = "[Desktop Entry]" then (true, acc.2)
  else if strStartsWith line "[" then (false, acc.2)
  else if !acc.1 then acc
  else
    match splitOnce line with
    | some (k, v) =>
      if strTrim k = key then (acc.1, some (strTrim v))
      else acc
    | none => acc

/-- The value of the last assignment to `key` inside the entry section
of the given lines, if any. -/
def lastEntryValue (key : String) (lines : List String) : Option String :=
  (lines.foldl (scanKey key) (false, none)).2

/-- The boolean the parser derives from an optional key value: `true`
exactly for the literal `true`, compared ASCII-case-insensitively. -/
def flagOf (v : Option String) : Bool :=
  match v with
  | some s => eqIgnoreAsciiCase s "true"
  | none => false

/-- One step of a scan recording whether some line inside the entry
section carries the given key at all. -/
def hasKeyStep (key : String) (acc : Bool × Bool) (rawLine : String) : Bool × Bool :=
  let line := strTrim rawLine
  if line = "[Desktop Entry]" then (true, acc.2)
  else if strStartsWith line "[" then (false, acc.2)
  else if !acc.1 then acc
  else
    match splitOnce line with
    | some (k, _) => if strTrim k = key then (acc.1, true) else acc
    | none => acc

/-- Whether some line inside the entry section carries the given key. -/
def entryHasKey (key : String) (lines : List String) : Bool :=
  (lines.foldl (hasKeyStep key) (false, false)).2

/-- The keys `parse_desktop_file` reacts to. -/
def recognizedKeys : List String :=
  ["Name", "Icon", "Comment", "Description", "NoDisplay", "Hidden"]

/-- Whether a line is guaranteed to leave the parse state unchanged
because it is neither a section header nor an assignment to a
recognized key. -/
def unrecognizedKeyLine (line : String) : Bool :=
  !(strStartsWith (strTrim line) "[") &&
    (match splitOnce (strTrim line) with
     | some (k, _) => !(recognizedKeys.contains (strTrim k))
     | none => true)

/-- The successful parse outcome of one path entry of `find_apps`,
before deduplication: the record produced when the entry is a valid
UTF-8 path to a regular `.desktop` file that reads and parses
successfully, and `none` otherwise. Mirrors the skip conditions of
`processPath`. -/
def candidate (env : Env) : PathEntry → Option AppInfo
  | none => none
  | some none => none
  | some (some str_path) =>
    if !env.isFile str_path then none
    else
      match extension str_path with
      | some ext =>
        if ext = "desktop" then
          match env.readFile str_path with
          | none => none
          | some content => parse_desktop_file content str_path
        else none
      | none => none

/-- The parsed records of a path list in scan order, before
deduplication. -/
def scanResults (env : Env) (entries : List PathEntry) : List AppInfo :=
  entries.filterMap (candidate env)

/-- The deduplication step shared by `find_apps` and
`load_applications`: keep a record only when its name is not yet in the
seen set. -/
def dedupStep (acc : List String × List AppInfo) (app : AppInfo) :
    List String × List AppInfo :=
  if acc.1.contains app.name then acc
  else (app.name :: acc.1, acc.2 ++ [app])

/-- First-occurrence deduplication by name, relative to a set of names
already seen. -/
def dedupGo (seen : List String) : List AppInfo → List AppInfo
  | [] => []
  | a :: rest =>
    if seen.contains a.name then dedupGo seen rest
    else a :: dedupGo (a.name :: seen) rest

/-!
### General lemmas about the embedding, shared by the claim theorems.
-/

theorem handle_selection_some (s : String) (run : SpawnedCommand → Option Bool) :
    handle_selection (some s) run = run (selectionCommand s) := by
  unfold handle_selection
  cases h : run (selectionCommand s) <;> simp [h]

theorem find_apps_ok (env : Env) (p : PathsArrayPtr) :
    ∃ l, find_apps env p = .ok l := by
  match p with
  | none => exact ⟨[], rfl⟩
  | some none => exact ⟨[], rfl⟩
  | some (some entries) => exact ⟨_, rfl⟩

/-!
### Claim theorems
-/

/-- Claim C10: every call to `get_entries`, regardless of its inputs,
sets the request flags `REQ_DATA.local_paths` and `REQ_DATA.xdg_paths`
to `false` and modifies no other field of the global request state. -/
theorem get_entries_clears_request_flags (req : ReqData) (env : Env)
    (respLocal respXdg : PathsArrayPtr) :
    (get_entries req env respLocal respXdg).1.local_paths = false ∧
    (get_entries req env respLocal respXdg).1.xdg_paths = false ∧
    (get_entries req env respLocal respXdg).1.paths = req.paths ∧
    (get_entries req env respLocal respXdg).1.light_paths = req.light_paths :=
  ⟨rfl, rfl, rfl, rfl⟩

/-- Claim C9: `find_apps` is total over its pointer inputs — a null
`PathsArray` pointer or a null inner `paths` pointer yields `Ok` with
an empty list, a null or non-UTF-8 individual path entry is skipped,
the result is never `Err`, and hence the two `.unwrap()` calls on its
results in `get_entries` can never panic. -/
theorem find_apps_total (env : Env) (req : ReqData) (es : List PathEntry)
    (respLocal respXdg : PathsArrayPtr) :
    find_apps env none = .ok [] ∧
    find_apps env (some none) = .ok [] ∧
    (∀ p : PathsArrayPtr, ∃ l, find_apps env p = .ok l) ∧
    find_apps env (some (some (none :: es))) = find_apps env (some (some es)) ∧
    find_apps env (some (some (some none :: es))) = find_apps env (some (some es)) ∧
    (get_entries req env respLocal respXdg).2.isSome = true := by
  refine ⟨rfl, rfl, find_apps_ok env, rfl, rfl, ?_⟩
  obtain ⟨a, ha⟩ := find_apps_ok env respLocal
  obtain ⟨b, hb⟩ := find_apps_ok env respXdg
  simp [get_entries, ha, hb]

/-- Claim C3 (amended): when the selection string is valid UTF-8, the
outcome of `handle_selection` is exactly the spawn outcome of the `gio
launch` helper — a boolean return when the helper runs to completion,
but a panic (modelled `none`) when the helper process cannot be
spawned, e.g. is not found; a non-UTF-8 selection also panics. -/
theorem handle_selection_boolean_when_helper_runs (s : String)
    (run : SpawnedCommand → Option Bool) :
    handle_selection (some s) run = run (selectionCommand s) ∧
    handle_selection none run = none :=
  ⟨handle_selection_some s run, rfl⟩

/-- Claim C3 counterexample: when the `gio` helper cannot be spawned
(e.g. the program is not found), `handle_selection` panics (modelled
`none`) instead of returning the boolean failure the claim promises. -/
theorem handle_selection_panic_counterexample :
    handle_selection (some "/usr/share/applications/foo.desktop") (fun _ => none) = none ∧
    handle_selection (some "/usr/share/applications/foo.desktop") (fun _ => none)
      ≠ some false :=
  ⟨rfl, by decide⟩

/-- Claim C7 (amended): for every selection value, `handle_selection`
constructs exactly one external command, `gio launch <selection>`; no
terminal-emulator chain and no `Exec`-field token extraction exist. -/
theorem handle_selection_single_gio_command (s : String)
    (run : SpawnedCommand → Option Bool) :
    handle_selection (some s) run = run { program := "gio", args := ["launch", s] } :=
  handle_selection_some s run

/-- Claim C7 counterexample: selecting the descriptor of a would-be
terminal application with `Exec=term-app --flag %U` consults only the
direct `gio launch` command on the descriptor path — the program run is
`gio`, its arguments are exactly `launch` and the path, and the `Exec`
token `term-app` appears nowhere. -/
theorem handle_selection_no_terminal_counterexample :
    handle_selection (some "/apps/term-app.desktop")
        (fun c => some (decide (c.program = "gio" ∧
          c.args = ["launch", "/apps/term-app.desktop"] ∧
          "term-app" ∉ c.args))) = some true := by
  decide

/-- Claim C6: filtering with an absent or empty query returns the full
catalog unchanged; filtering with a non-empty query returns exactly the
order-preserving subset of records whose lower-cased name contains the
lower-cased query. -/
theorem filter_entries_substring (catalog : List AppInfo) (q : String) (hq : q ≠ "") :
    filter_entries catalog none = catalog ∧
    filter_entries catalog (some "") = catalog ∧
    List.Sublist (filter_entries catalog (some q)) catalog ∧
    ∀ a, a ∈ filter_entries catalog (some q) ↔
      (a ∈ catalog ∧ containsSubstr (strToLower a.name) (strToLower q) = true) := by
  refine ⟨rfl, by simp [filter_entries], ?_, ?_⟩
  · simp only [filter_entries, if_neg hq]
    exact List.filter_sublist catalog
  · intro a
    simp [filter_entries, if_neg hq, List.mem_filter]

/-- A two-record catalog used by the claim C6 witness. -/
def catalogC6 : List AppInfo :=
  [{ name := "Firefox", description := none, path := "/a/firefox.desktop",
     icon := some "ff", emoji := none },
   { name := "Files", description := none, path := "/a/files.desktop",
     icon := some "fi", emoji := none }]

/-- Witness for claim C6 at a concrete catalog and the query `fire`. -/
theorem filter_entries_substring_witness :
    ("fire" ≠ "") ∧
    (filter_entries catalogC6 none = catalogC6 ∧
     filter_entries catalogC6 (some "") = catalogC6 ∧
     List.Sublist (filter_entries catalogC6 (some "fire")) catalogC6 ∧
     ∀ a, a ∈ filter_entries catalogC6 (some "fire") ↔
       (a ∈ catalogC6 ∧ containsSubstr (strToLower a.name) (strToLower "fire") = true)) :=
  ⟨by decide, filter_entries_substring catalogC6 "fire" (by decide)⟩

theorem parseLine_of_unrecognized (st : ParseState) (line : String)
    (h : unrecognizedKeyLine line = true) :
    parseLine st line = st := by
  unfold unrecognizedKeyLine at h
  rw [Bool.and_eq_true] at h
  obtain ⟨hb, hk⟩ := h
  rw [Bool.not_eq_true'] at hb
  unfold parseLine
  have hde : ¬ (strTrim line = "[Desktop Entry]") := by
    intro he
    rw [he] at hb
    exact absurd hb (by decide)
  rw [if_neg hde, hb, if_neg (by decide : ¬ (false = true))]
  by_cases hin : st.in_desktop_entry
  case neg => simp [hin]
  case pos =>
    simp only [hin, Bool.not_true, if_neg (by decide : ¬ (false = true))]
    cases hs : splitOnce (strTrim line) with
    | none => rfl
    | some kv =>
      obtain ⟨k, v⟩ := kv
      rw [hs] at hk
      simp only [Bool.not_eq_true'] at hk
      have hmem : strTrim k ∉ recognizedKeys := by simpa using hk
      simp only [recognizedKeys, List.mem_cons, List.not_mem_nil, or_false,
        not_or] at hmem
      obtain ⟨h1, h2, h3, h4, h5, h6⟩ := hmem
      simp [h1, h2, h3, h4, h5, h6]

/-- Claim C2 (amended): the parser's output is determined only by the
keys `Name`, `Icon`, `Comment`, `Description`, `NoDisplay` and `Hidden`
inside the entry section; a line carrying any other key — including
`Terminal`, which the record type does not even represent — leaves the
parse result unchanged wherever it is inserted. -/
theorem parse_ignores_unrecognized_keys (pre post : List String) (path line : String)
    (h : unrecognizedKeyLine line = true) :
    parse_desktop_file (pre ++ line :: post) path = parse_desktop_file (pre ++ post) path := by
  unfold parse_desktop_file
  rw [List.foldl_append, List.foldl_append, List.foldl_cons,
    parseLine_of_unrecognized _ _ h]

/-- Witness for claim C2 (amended): inserting `Terminal=true` after a
complete entry section leaves the parse result unchanged. -/
theorem parse_ignores_unrecognized_keys_witness :
    unrecognizedKeyLine "Terminal=true" = true ∧
    parse_desktop_file (["[Desktop Entry]", "Name=a", "Icon=b"] ++ "Terminal=true" :: []) "/p"
      = parse_desktop_file (["[Desktop Entry]", "Name=a", "Icon=b"] ++ []) "/p" :=
  ⟨by decide,
   parse_ignores_unrecognized_keys ["[Desktop Entry]", "Name=a", "Icon=b"] [] "/p"
     "Terminal=true" (by decide)⟩

/-- Claim C2 counterexample: a `Description` line — a key the claim
does not list as recognized — changes the parse result: it fills the
record's description exactly as `Comment` would. -/
theorem parse_description_key_counterexample :
    parse_desktop_file ["[Desktop Entry]", "Name=a", "Icon=b", "Description=c"] "/p"
      = some { name := "a", description := some "c", path := "/p",
               icon := some "b", emoji := none } ∧
    parse_desktop_file ["[Desktop Entry]", "Name=a", "Icon=b"] "/p"
      = some { name := "a", description := none, path := "/p",
               icon := some "b", emoji := none } ∧
    parse_desktop_file ["[Desktop Entry]", "Name=a", "Icon=b", "Description=c"] "/p"
      ≠ parse_desktop_file ["[Desktop Entry]", "Name=a", "Icon=b"] "/p" := by
  refine ⟨by decide, by decide, by decide⟩

theorem parseLine_scanKey_hidden (st : ParseState) (v : Option String) (line : String)
    (h : st.hidden = flagOf v) :
    (parseLine st line).in_desktop_entry
        = (scanKey "Hidden" (st.in_desktop_entry, v) line).1 ∧
    (parseLine st line).hidden
        = flagOf (scanKey "Hidden" (st.in_desktop_entry, v) line).2 := by
  unfold parseLine scanKey
  by_cases h1 : strTrim line = "[Desktop Entry]"
  · simp [h1, h]
  · by_cases h2 : strStartsWith (strTrim line) "[" = true
    · simp [h1, h2, h]
    · by_cases h3 : st.in_desktop_entry = true
      · cases hs : splitOnce (strTrim line) with
        | none => simp [h1, h2, h3, hs, h]
        | some kv =>
          obtain ⟨k, vv⟩ := kv
          by_cases hk : strTrim k = "Hidden"
          · have n1 : ¬ strTrim k = "Name" := by rw [hk]; decide
            have n2 : ¬ strTrim k = "Icon" := by rw [hk]; decide
            have n3 : ¬ (strTrim k = "Comment" ∨ strTrim k = "Description") := by
              rw [hk]; decide
            have n4 : ¬ strTrim k = "NoDisplay" := by rw [hk]; decide
            simp [h1, h2, h3, hs, hk, n1, n2, n3, n4, flagOf]
          · simp only [h1, h2, h3, hs, if_neg h1, Bool.not_true,
              if_neg (by decide : ¬ (false = true))]
            split_ifs <;> simp_all [flagOf]
      · simp only [Bool.not_eq_true] at h3
        simp [h1, h2, h3, h]

theorem foldl_parseLine_hidden (lines : List String) :
    ∀ (st : ParseState) (v : Option String), st.hidden = flagOf v →
      (lines.foldl parseLine st).in_desktop_entry
          = (lines.foldl (scanKey "Hidden") (st.in_desktop_entry, v)).1 ∧
      (lines.foldl parseLine st).hidden
          = flagOf (lines.foldl (scanKey "Hidden") (st.in_desktop_entry, v)).2 := by
  induction lines with
  | nil => intro st v h; exact ⟨rfl, h⟩
  | cons line rest ih =>
    intro st v h
    obtain ⟨h1, h2⟩ := parseLine_scanKey_hidden st v line h
    rw [List.foldl_cons, List.foldl_cons]
    have step := ih (parseLine st line) (scanKey "Hidden" (st.in_desktop_entry, v) line).2 h2
    rw [h1] at step
    simpa using step

theorem parseLine_scanKey_no_display (st : ParseState) (v : Option String) (line : String)
    (h : st.no_display = flagOf v) :
    (parseLine st line).in_desktop_entry
        = (scanKey "NoDisplay" (st.in_desktop_entry, v) line).1 ∧
    (parseLine st line).no_display
        = flagOf (scanKey "NoDisplay" (st.in_desktop_entry, v) line).2 := by
  unfold parseLine scanKey
  by_cases h1 : strTrim line = "[Desktop Entry]"
  · simp [h1, h]
  · by_cases h2 : strStartsWith (strTrim line) "[" = true
    · simp [h1, h2, h]
    · by_cases h3 : st.in_desktop_entry = true
      · cases hs : splitOnce (strTrim line) with
        | none => simp [h1, h2, h3, hs, h]
        | some kv =>
          obtain ⟨k, vv⟩ := kv
          by_cases hk : strTrim k = "NoDisplay"
          · have n1 : ¬ strTrim k = "Name" := by rw [hk]; decide
            have n2 : ¬ strTrim k = "Icon" := by rw [hk]; decide
            have n3 : ¬ (strTrim k = "Comment" ∨ strTrim k = "Description") := by
              rw [hk]; decide
            simp [h1, h2, h3, hs, hk, n1, n2, n3, flagOf]
          · simp only [h1, h2, h3, hs, if_neg h1, Bool.not_true,
              if_neg (by decide : ¬ (false = true))]
            split_ifs <;> simp_all [flagOf]
      · simp only [Bool.not_eq_true] at h3
        simp [h1, h2, h3, h]

theorem foldl_parseLine_no_display (lines : List String) :
    ∀ (st : ParseState) (v : Option String), st.no_display = flagOf v →
      (lines.foldl parseLine st).in_desktop_entry
          = (lines.foldl (scanKey "NoDisplay") (st.in_desktop_entry, v)).1 ∧
      (lines.foldl parseLine st).no_display
          = flagOf (lines.foldl (scanKey "NoDisplay") (st.in_desktop_entry, v)).2 := by
  induction lines with
  | nil => intro st v h; exact ⟨rfl, h⟩
  | cons line rest ih =>
    intro st v h
    obtain ⟨h1, h2⟩ := parseLine_scanKey_no_display st v line h
    rw [List.foldl_cons, List.foldl_cons]
    have step := ih (parseLine st line) (scanKey "NoDisplay" (st.in_desktop_entry, v) line).2 h2
    rw [h1] at step
    simpa using step

theorem parseLine_hasKey_name (st : ParseState) (f : Bool) (line : String)
    (h : f = false → st.name = none) :
    (parseLine st line).in_desktop_entry
        = (hasKeyStep "Name" (st.in_desktop_entry, f) line).1 ∧
    ((hasKeyStep "Name" (st.in_desktop_entry, f) line).2 = false →
      (parseLine st line).name = none) := by
  unfold parseLine hasKeyStep
  by_cases h1 : strTrim line = "[Desktop Entry]"
  · simp [h1]
    try exact h
  · by_cases h2 : strStartsWith (strTrim line) "[" = true
    · simp [h1, h2]
      try exact h
    · by_cases h3 : st.in_desktop_entry = true
      · cases hs : splitOnce (strTrim line) with
        | none =>
          simp [h1, h2, h3, hs]
          try exact h
        | some kv =>
          obtain ⟨k, vv⟩ := kv
          by_cases hk : strTrim k = "Name"
          · simp [h1, h2, h3, hs, hk]
          · simp only [h1, h2, h3, hs, if_neg h1, Bool.not_true,
              if_neg (by decide : ¬ (false = true))]
            split_ifs <;> simp_all
      · simp only [Bool.not_eq_true] at h3
        simp [h1, h2, h3]
        try exact h

theorem foldl_parseLine_name (lines : List String) :
    ∀ (st : ParseState) (f : Bool), (f = false → st.name = none) →
      (lines.foldl parseLine st).in_desktop_entry
          = (lines.foldl (hasKeyStep "Name") (st.in_desktop_entry, f)).1 ∧
      ((lines.foldl (hasKeyStep "Name") (st.in_desktop_entry, f)).2 = false →
        (lines.foldl parseLine st).name = none) := by
  induction lines with
  | nil => intro st f h; exact ⟨rfl, h⟩
  | cons line rest ih =>
    intro st f h
    obtain ⟨h1, h2⟩ := parseLine_hasKey_name st f line h
    rw [List.foldl_cons, List.foldl_cons]
    have step := ih (parseLine st line) (hasKeyStep "Name" (st.in_desktop_entry, f) line).2 h2
    rw [h1] at step
    simpa using step

theorem parseLine_hasKey_icon (st : ParseState) (f : Bool) (line : String)
    (h : f = false → st.icon = none) :
    (parseLine st line).in_desktop_entry
        = (hasKeyStep "Icon" (st.in_desktop_entry, f) line).1 ∧
    ((hasKeyStep "Icon" (st.in_desktop_entry, f) line).2 = false →
      (parseLine st line).icon = none) := by
  unfold parseLine hasKeyStep
  by_cases h1 : strTrim line = "[Desktop Entry]"
  · simp [h1]
    try exact h
  · by_cases h2 : strStartsWith (strTrim line) "[" = true
    · simp [h1, h2]
      try exact h
    · by_cases h3 : st.in_desktop_entry = true
      · cases hs : splitOnce (strTrim line) with
        | none =>
          simp [h1, h2, h3, hs]
          try exact h
        | some kv =>
          obtain ⟨k, vv⟩ := kv
          by_cases hk : strTrim k = "Icon"
          · have n1 : ¬ strTrim k = "Name" := by rw [hk]; decide
            simp [h1, h2, h3, hs, hk, n1]
          · simp only [h1, h2, h3, hs, if_neg h1, Bool.not_true,
              if_neg (by decide : ¬ (false = true))]
            split_ifs <;> simp_all
      · simp only [Bool.not_eq_true] at h3
        simp [h1, h2, h3]
        try exact h

theorem foldl_parseLine_icon (lines : List String) :
    ∀ (st : ParseState) (f : Bool), (f = false → st.icon = none) →
      (lines.foldl parseLine st).in_desktop_entry
          = (lines.foldl (hasKeyStep "Icon") (st.in_desktop_entry, f)).1 ∧
      ((lines.foldl (hasKeyStep "Icon") (st.in_desktop_entry, f)).2 = false →
        (lines.foldl parseLine st).icon = none) := by
  induction lines with
  | nil => intro st f h; exact ⟨rfl, h⟩
  | cons line rest ih =>
    intro st f h
    obtain ⟨h1, h2⟩ := parseLine_hasKey_icon st f line h
    rw [List.foldl_cons, List.foldl_cons]
    have step := ih (parseLine st line) (hasKeyStep "Icon" (st.in_desktop_entry, f) line).2 h2
    rw [h1] at step
    simpa using step

/-- Claim C4 (amended): if the last `Hidden` assignment inside the
entry section — or the last `NoDisplay` assignment — carries the value
`true` in any letter case, parsing returns `none` even when `Name` and
`Icon` are present. (The claim as stated over any `Hidden=true` line
fails when a later line inside the entry section reassigns the key.) -/
theorem parse_rejects_hidden (lines : List String) (path : String)
    (h : flagOf (lastEntryValue "Hidden" lines) = true ∨
         flagOf (lastEntryValue "NoDisplay" lines) = true) :
    parse_desktop_file lines path = none := by
  unfold parse_desktop_file
  cases h with
  | inl hh =>
    have hf := (foldl_parseLine_hidden lines initParseState none rfl).2
    unfold lastEntryValue at hh
    have : (lines.foldl parseLine initParseState).hidden = true := by
      rw [hf]; exact hh
    simp [this]
  | inr hn =>
    have hf := (foldl_parseLine_no_display lines initParseState none rfl).2
    unfold lastEntryValue at hn
    have : (lines.foldl parseLine initParseState).no_display = true := by
      rw [hf]; exact hn
    simp [this]

/-- Witness for claim C4 (amended): a descriptor whose entry section
sets `Hidden=TRUE` (upper case) parses to `none` despite having both
`Name` and `Icon`. -/
theorem parse_rejects_hidden_witness :
    (flagOf (lastEntryValue "Hidden" ["[Desktop Entry]", "Name=a", "Icon=b", "Hidden=TRUE"]) = true ∨
     flagOf (lastEntryValue "NoDisplay" ["[Desktop Entry]", "Name=a", "Icon=b", "Hidden=TRUE"]) = true) ∧
    parse_desktop_file ["[Desktop Entry]", "Name=a", "Icon=b", "Hidden=TRUE"] "/p" = none :=
  ⟨Or.inl (by decide),
   parse_rejects_hidden ["[Desktop Entry]", "Name=a", "Icon=b", "Hidden=TRUE"] "/p"
     (Or.inl (by decide))⟩

/-- Claim C4 counterexample: a descriptor that sets `Hidden=true`
inside the entry section and later reassigns `Hidden=false` parses to a
record, although the claim requires `none` for every descriptor whose
entry section sets `Hidden` to `true`. -/
theorem parse_hidden_override_counterexample :
    entrySetsTrue "Hidden"
      ["[Desktop Entry]", "Name=a", "Icon=b", "Hidden=true", "Hidden=false"] = true ∧
    parse_desktop_file
      ["[Desktop Entry]", "Name=a", "Icon=b", "Hidden=true", "Hidden=false"] "/p"
      = some { name := "a", description := none, path := "/p",
               icon := some "b", emoji := none } := by
  refine ⟨by decide, by decide⟩

/-- Claim C5: a descriptor text lacking a `Name` key or lacking an
`Icon` key inside the entry section parses to `none`; no
partially-filled record is ever produced. -/
theorem parse_requires_name_and_icon (lines : List String) (path : String)
    (h : entryHasKey "Name" lines = false ∨ entryHasKey "Icon" lines = false) :
    parse_desktop_file lines path = none := by
  unfold parse_desktop_file
  cases h with
  | inl hn =>
    have hf := (foldl_parseLine_name lines initParseState false (fun _ => rfl)).2
    unfold entryHasKey at hn
    have : (lines.foldl parseLine initParseState).name = none := hf hn
    simp [this]
  | inr hi =>
    have hf := (foldl_parseLine_icon lines initParseState false (fun _ => rfl)).2
    unfold entryHasKey at hi
    have : (lines.foldl parseLine initParseState).icon = none := hf hi
    simp [this]

/-- Witness for claim C5: a descriptor with `Icon` and `Comment` but no
`Name` key in its entry section parses to `none`. -/
theorem parse_requires_name_and_icon_witness :
    (entryHasKey "Name" ["[Desktop Entry]", "Icon=b", "Comment=c"] = false ∨
     entryHasKey "Icon" ["[Desktop Entry]", "Icon=b", "Comment=c"] = false) ∧
    parse_desktop_file ["[Desktop Entry]", "Icon=b", "Comment=c"] "/p" = none :=
  ⟨Or.inl (by decide),
   parse_requires_name_and_icon ["[Desktop Entry]", "Icon=b", "Comment=c"] "/p"
     (Or.inl (by decide))⟩

theorem processPath_eq (env : Env) (acc : List String × List AppInfo) (e : PathEntry) :
    processPath env acc e =
      match candidate env e with
      | none => acc
      | some app => dedupStep acc app := by
  match e with
  | none => rfl
  | some none => rfl
  | some (some p) =>
    unfold processPath candidate dedupStep
    by_cases hf : env.isFile p
    · simp only [hf, Bool.not_true, if_neg (by decide : ¬ (false = true))]
      cases hx : extension p with
      | none => rfl
      | some ext =>
        by_cases he : ext = "desktop"
        · simp only [he, if_pos rfl]
          cases hr : env.readFile p with
          | none => rfl
          | some content =>
            cases hp : parse_desktop_file content p with
            | none => rfl
            | some app => rfl
        · simp [he]
    · simp only [Bool.not_eq_true] at hf
      simp [hf]

theorem foldl_processPath (env : Env) (es : List PathEntry) :
    ∀ acc, es.foldl (processPath env) acc
      = (es.filterMap (candidate env)).foldl dedupStep acc := by
  induction es with
  | nil => intro acc; rfl
  | cons e rest ih =>
    intro acc
    rw [List.foldl_cons, List.filterMap_cons, processPath_eq]
    cases hc : candidate env e with
    | none => simpa using ih acc
    | some app => simpa using ih (dedupStep acc app)

theorem foldl_dedupStep (l : List AppInfo) :
    ∀ (seen : List String) (apps : List AppInfo),
      (l.foldl dedupStep (seen, apps)).2 = apps ++ dedupGo seen l := by
  induction l with
  | nil => intro seen apps; simp [dedupGo]
  | cons a rest ih =>
    intro seen apps
    rw [List.foldl_cons]
    by_cases h : a.name ∈ seen
    · have hd : dedupStep (seen, apps) a = (seen, apps) := by simp [dedupStep, h]
      rw [hd, ih]
      simp [dedupGo, h]
    · have hd : dedupStep (seen, apps) a = (a.name :: seen, apps ++ [a]) := by
        simp [dedupStep, h]
      rw [hd, ih]
      simp [dedupGo, h]

theorem mem_dedupGo (l : List AppInfo) :
    ∀ (seen : List String) (a : AppInfo), a ∈ dedupGo seen l →
      a.name ∉ seen ∧ l.find? (fun b => b.name == a.name) = some a := by
  induction l with
  | nil => intro seen a ha; simp [dedupGo] at ha
  | cons b rest ih =>
    intro seen a ha
    by_cases hc : b.name ∈ seen
    · have hd : dedupGo seen (b :: rest) = dedupGo seen rest := by simp [dedupGo, hc]
      rw [hd] at ha
      obtain ⟨h1, h2⟩ := ih seen a ha
      have hne : (b.name == a.name) = false := by
        simp only [beq_eq_false_iff_ne, ne_eq]
        intro he
        exact h1 (he ▸ hc)
      refine ⟨h1, ?_⟩
      rw [List.find?_cons, hne]
      exact h2
    · have hd : dedupGo seen (b :: rest) = b :: dedupGo (b.name :: seen) rest := by
        simp [dedupGo, hc]
      rw [hd] at ha
      rcases List.mem_cons.mp ha with rfl | hmem
      · refine ⟨hc, ?_⟩
        rw [List.find?_cons, show (a.name == a.name) = true from by simp]
      · obtain ⟨h1, h2⟩ := ih (b.name :: seen) a hmem
        have hna : a.name ≠ b.name := fun he => h1 (by simp [he])
        have h1' : a.name ∉ seen := fun hm => h1 (List.mem_cons_of_mem _ hm)
        have hne : (b.name == a.name) = false := by
          simp only [beq_eq_false_iff_ne, ne_eq]
          exact fun he => hna he.symm
        refine ⟨h1', ?_⟩
        rw [List.find?_cons, hne]
        exact h2

theorem nodup_dedupGo (l : List AppInfo) :
    ∀ seen : List String, ((dedupGo seen l).map AppInfo.name).Nodup := by
  induction l with
  | nil => intro seen; simp [dedupGo]
  | cons b rest ih =>
    intro seen
    by_cases hc : b.name ∈ seen
    · have hd : dedupGo seen (b :: rest) = dedupGo seen rest := by simp [dedupGo, hc]
      rw [hd]
      exact ih seen
    · have hd : dedupGo seen (b :: rest) = b :: dedupGo (b.name :: seen) rest := by
        simp [dedupGo, hc]
      rw [hd, List.map_cons, List.nodup_cons]
      refine ⟨?_, ih (b.name :: seen)⟩
      intro hmem
      obtain ⟨a, hmem2, hname⟩ := List.mem_map.mp hmem
      have := (mem_dedupGo rest (b.name :: seen) a hmem2).1
      exact this (by simp [hname])

theorem find_apps_eq_dedup (env : Env) (es : List PathEntry) :
    find_apps env (some (some es)) = .ok (dedupGo [] (scanResults env es)) := by
  show Except.ok ((es.foldl (processPath env) ([], []))).2
      = Except.ok (dedupGo [] (scanResults env es))
  rw [foldl_processPath, foldl_dedupStep]
  rfl

/-- Claim C1 (amended): within one `find_apps` call the names of the
returned records are pairwise distinct and, when two descriptor files
carry the same `Name`, the record kept is the one from the
earlier-scanned file: each returned record is the first parsed
candidate bearing its name. (In one `get_entries` call — the full
catalog-build pass — the claim fails: `get_entries` concatenates two
independent `find_apps` results, each deduplicated separately, so a
name present in both path arrays appears twice.) -/
theorem find_apps_first_name_wins (env : Env) (es : List PathEntry) (l : List AppInfo)
    (h : find_apps env (some (some es)) = .ok l) :
    (l.map AppInfo.name).Nodup ∧
    ∀ a ∈ l, (scanResults env es).find? (fun b => b.name == a.name) = some a := by
  rw [find_apps_eq_dedup] at h
  have hl : l = dedupGo [] (scanResults env es) := by
    cases h
    rfl
  subst hl
  refine ⟨nodup_dedupGo _ _, fun a ha => (mem_dedupGo _ _ a ha).2⟩

/-- The filesystem for the claim C1 witness: two descriptor files that
both declare `Name=Foo`. -/
def envC1w : Env :=
  { pathExists := fun p => p = "/l/a.desktop" || p = "/l/dup.desktop"
    isFile := fun p => p = "/l/a.desktop" || p = "/l/dup.desktop"
    readFile := fun p =>
      if p = "/l/a.desktop" then some ["[Desktop Entry]", "Name=Foo", "Icon=ia"]
      else if p = "/l/dup.desktop" then some ["[Desktop Entry]", "Name=Foo", "Icon=ib"]
      else none
    readDir := fun _ => .error "unused" }

/-- The path entries for the claim C1 witness. -/
def esC1w : List PathEntry :=
  [some (some "/l/a.desktop"), some (some "/l/dup.desktop")]

/-- The deduplicated result for the claim C1 witness: only the record
of the earlier-scanned file survives. -/
def lC1w : List AppInfo :=
  [{ name := "Foo", description := none, path := "/l/a.desktop",
     icon := some "ia", emoji := none }]

/-- Witness for claim C1 (amended) on a concrete filesystem with a
duplicated name. -/
theorem find_apps_first_name_wins_witness :
    find_apps envC1w (some (some esC1w)) = .ok lC1w ∧
    ((lC1w.map AppInfo.name).Nodup ∧
     ∀ a ∈ lC1w, (scanResults envC1w esC1w).find? (fun b => b.name == a.name) = some a) :=
  ⟨by rfl, find_apps_first_name_wins envC1w esC1w lC1w (by rfl)⟩

/-- The filesystem for the claim C1 counterexample: the local array and
the xdg array each contain a descriptor named `Foo`. -/
def envC1 : Env :=
  { pathExists := fun p => p = "/l/a.desktop" || p = "/x/b.desktop"
    isFile := fun p => p = "/l/a.desktop" || p = "/x/b.desktop"
    readFile := fun p =>
      if p = "/l/a.desktop" then some ["[Desktop Entry]", "Name=Foo", "Icon=ia"]
      else if p = "/x/b.desktop" then some ["[Desktop Entry]", "Name=Foo", "Icon=ib"]
      else none
    readDir := fun _ => .error "unused" }

/-- The request state for the claim C1 counterexample (the default
`REQ_DATA` of the plugin). -/
def reqC1 : ReqData :=
  { paths := false, light_paths := false, local_paths := true, xdg_paths := true }

/-- Claim C1 counterexample: one `get_entries` call over a local path
array and an xdg path array that both contain a descriptor named `Foo`
returns a catalog whose name list is `[Foo, Foo]` — not pairwise
distinct, because each of the two `find_apps` calls deduplicates with
its own fresh `seen_names` set. -/
theorem get_entries_duplicate_names_counterexample :
    ¬ ((((get_entries reqC1 envC1
          (some (some [some (some "/l/a.desktop")]))
          (some (some [some (some "/x/b.desktop")]))).2.getD []).map
        AppInfo.name).Nodup) := by
  decide

/-- Claim C8 (amended): for every candidate root, `load_applications`
always appends the `applications` segment — even when the root's last
path segment is already `applications` — and a root whose resulting
directory does not exist is skipped silently, without producing an
error. -/
theorem load_skips_missing_dir (env : Env) (acc : List String × List AppInfo)
    (root : String) (rest : List String)
    (h : env.pathExists (joinPath root "applications") = false) :
    loadDirs env acc (root :: rest) = loadDirs env acc rest ∧
    load_applications env (root :: rest) = load_applications env rest := by
  have h1 : ∀ acc2 : List String × List AppInfo,
      loadDirs env acc2 (root :: rest) = loadDirs env acc2 rest := by
    intro acc2
    simp [loadDirs, h]
  refine ⟨h1 acc, ?_⟩
  unfold load_applications
  rw [h1 ([], [])]

/-- A filesystem with no directories at all, for the claim C8 witness. -/
def envC8w : Env :=
  { pathExists := fun _ => false
    isFile := fun _ => false
    readFile := fun _ => none
    readDir := fun _ => .error "unused" }

/-- Witness for claim C8 (amended): a root whose joined applications
directory does not exist contributes nothing and raises no error. -/
theorem load_skips_missing_dir_witness :
    envC8w.pathExists (joinPath "/r" "applications") = false ∧
    (loadDirs envC8w ([], []) ("/r" :: []) = loadDirs envC8w ([], []) [] ∧
     load_applications envC8w ("/r" :: []) = load_applications envC8w []) :=
  ⟨rfl, load_skips_missing_dir envC8w ([], []) "/r" [] rfl⟩

/-- The filesystem for the claim C8 counterexample: a valid descriptor
lives directly under `/usr/share/applications`, a root that already
ends in the `applications` segment; the doubled directory
`/usr/share/applications/applications` does not exist. -/
def envC8 : Env :=
  { pathExists := fun p =>
      p = "/usr/share/applications" || p = "/usr/share/applications/foo.desktop"
    isFile := fun p => p = "/usr/share/applications/foo.desktop"
    readFile := fun p =>
      if p = "/usr/share/applications/foo.desktop" then
        some ["[Desktop Entry]", "Name=Foo", "Icon=i"]
      else none
    readDir := fun p =>
      if p = "/usr/share/applications" then .ok ["/usr/share/applications/foo.desktop"]
      else .error "missing" }

/-- The record the claim C8 counterexample expects the spec's version
of the builder to find. -/
def fooC8 : AppInfo :=
  { name := "Foo", description := none, path := "/usr/share/applications/foo.desktop",
    icon := some "i", emoji := none }

/-- Claim C8 counterexample: on a root whose last segment is already
`applications`, the code still appends another `applications` segment,
finds no directory, and returns an empty catalog, while the claim's
conditional-append behavior (`load_applications_spec`) scans the root
itself and returns the descriptor found there. -/
theorem load_applications_append_counterexample :
    load_applications envC8 ["/usr/share/applications"] = .ok [] ∧
    load_applications_spec envC8 ["/usr/share/applications"] = .ok [fooC8] ∧
    (Except.ok [] : Except String (List AppInfo)) ≠ .ok [fooC8] := by
  refine ⟨by rfl, by rfl, by simp [fooC8]⟩

end Applist
